import Mathlib

/-! Library management system: catalog, borrow engine, listing and persistence.

A shallow embedding of `src/backend/library_management.cpp`.

* A `std::string` is the list of its characters; `operator<` on strings is the
  lexicographic order of these lists, `operator==` is equality.
* A `Book*` is an address (a natural number); the heap maps every address to the
  `Book` object stored there.  `nullptr` is `none`.
* `vector<Book*> books` is the list of addresses in catalog order.
* `vector<User*> users` is the list of the users in catalog order; a `User*` is the
  index of the user in that list (the vector is only ever appended to).
* `time(nullptr)` is the parameter `now` of the functions that read the clock.
-/

namespace LibraryManagement

/-! ## Data model -/

/-- A `std::string`: its characters in order. -/
abbrev Str := List Char

/-- Class `Book` with the members it inherits from `LibraryItem`
(`title`, `id`, `available`). -/
structure Book where
  title : Str
  id : Str
  available : Bool
  author : Str
  isbn : Str
  genre : Str
  publicationYear : Int
deriving DecidableEq

/-- Constructor `Book(title, author, isbn, genre, publicationYear)`:
`LibraryItem(title, isbn)` sets `id` to the isbn and `available` to `true`. -/
def Book.new (title author isbn genre : Str) (publicationYear : Int) : Book :=
  { title := title, id := isbn, available := true, author := author,
    isbn := isbn, genre := genre, publicationYear := publicationYear }

/-- Method `LibraryItem::setAvailable`. -/
def Book.setAvailable (b : Book) (status : Bool) : Book :=
  { b with available := status }

/-- The heap of `Book` objects: the object stored at each address. -/
abbrev Heap := Nat → Book

/-- The call `book->setAvailable(status)` for the object at address `p`. -/
def Heap.setAvailable (h : Heap) (p : Nat) (status : Bool) : Heap :=
  fun q => if q = p then (h q).setAvailable status else h q

/-- Class `User`; `borrowedBooks` is `vector<pair<Book*, time_t>>`:
the address of the book and the due date. -/
structure User where
  userId : Str
  name : Str
  email : Str
  borrowedBooks : List (Nat × Int)
deriving DecidableEq

/-- Constructor `User(userId, name, email)`: no borrowed books. -/
def User.new (userId name email : Str) : User :=
  { userId := userId, name := name, email := email, borrowedBooks := [] }

/-- Class `Library` (the catalog): the `Book` objects, `vector<Book*> books` and
`vector<User*> users`.  The HTTP server members are not modelled. -/
structure Library where
  heap : Heap
  books : List Nat
  users : List User

/-! ## Borrow engine -/

/-- Method `User::borrowBook(Book* book)` called at time `now`: returns the boolean
result, the heap and the user after the call.  The due date is
`now + 14 * 24 * 60 * 60` (`time_t` is taken without overflow). -/
def User.borrowBook (now : Int) (heap : Heap) (u : User) (book : Option Nat) :
    Bool × Heap × User :=
  match book with
  | some p =>
    if (heap p).available then
      (true, heap.setAvailable p false,
        { u with borrowedBooks := u.borrowedBooks ++ [(p, now + 14 * 24 * 60 * 60)] })
    else (false, heap, u)
  | none => (false, heap, u)

/-- The loop of `User::returnBook`: walks the records from the front; at the first
record whose pointer equals `book` it erases that record (`some` of the remaining
vector); `none` when the loop ends without a match. -/
def returnLoop (book : Option Nat) : List (Nat × Int) → Option (List (Nat × Int))
  | [] => none
  | r :: rs =>
    if some r.1 = book then some rs
    else (returnLoop book rs).map (fun rs' => r :: rs')

/-- Method `User::returnBook(Book* book)`: returns the boolean result, the heap and
the user after the call. -/
def User.returnBook (heap : Heap) (u : User) (book : Option Nat) :
    Bool × Heap × User :=
  match book, returnLoop book u.borrowedBooks with
  | some p, some rs => (true, heap.setAvailable p true, { u with borrowedBooks := rs })
  | _, _ => (false, heap, u)

/-- The call `users[i]->borrowBook(book)` in a catalog state, at time `now`. -/
def Library.borrowBook (now : Int) (lib : Library) (i : Nat) (book : Option Nat) :
    Bool × Library :=
  match lib.users[i]? with
  | some u =>
    let r := u.borrowBook now lib.heap book
    (r.1, { lib with heap := r.2.1, users := lib.users.set i r.2.2 })
  | none => (false, lib)

/-- The call `users[i]->returnBook(book)` in a catalog state. -/
def Library.returnBook (lib : Library) (i : Nat) (book : Option Nat) :
    Bool × Library :=
  match lib.users[i]? with
  | some u =>
    let r := u.returnBook lib.heap book
    (r.1, { lib with heap := r.2.1, users := lib.users.set i r.2.2 })
  | none => (false, lib)

/-! ## Properties of the catalog state used in the statements -/

/-- The number of users that hold at least one borrow record for the book at `p`. -/
def Library.holders (lib : Library) (p : Nat) : Nat :=
  lib.users.countP (fun u => u.borrowedBooks.any (fun r => r.1 == p))

/-- The number of borrow records for the book at `p`, across all users. -/
def Library.records (lib : Library) (p : Nat) : Nat :=
  (lib.users.map (fun u => u.borrowedBooks.countP (fun r => r.1 == p))).sum

/-- The isbns of the catalog, in catalog order. -/
def Library.isbns (lib : Library) : List Str :=
  lib.books.map (fun p => (lib.heap p).isbn)

/-- Every book of the catalog is unavailable if and only if exactly one user holds
a borrow record for it. -/
def AvailabilityInv (lib : Library) : Prop :=
  ∀ p ∈ lib.books, ((lib.heap p).available = false ↔ lib.holders p = 1)

/-- Every book of the catalog appears in at most one borrow record across all
users. -/
def AtMostOneRecord (lib : Library) : Prop :=
  ∀ p ∈ lib.books, lib.records p ≤ 1

instance (lib : Library) : Decidable (AvailabilityInv lib) := by
  unfold AvailabilityInv; infer_instance

instance (lib : Library) : Decidable (AtMostOneRecord lib) := by
  unfold AtMostOneRecord; infer_instance

/-! ## Persistence: writing the snapshot -/

/-- The output of `operator<<` for an integer (`int`, `time_t`): its decimal digits,
preceded by `-` when it is negative. -/
def showInt : Int → Str
  | Int.ofNat m => Nat.toDigits 10 m
  | Int.negSucc m => '-' :: Nat.toDigits 10 (m + 1)

/-- The output of `operator<<` for a `bool` (no `boolalpha`): `1` or `0`. -/
def showBool (b : Bool) : Str := if b then ['1'] else ['0']

/-- The line `saveData` writes for a book:
`title,author,isbn,genre,year,available` and a newline. -/
def bookLine (b : Book) : Str :=
  b.title ++ [','] ++ b.author ++ [','] ++ b.isbn ++ [','] ++ b.genre ++ [',']
    ++ showInt b.publicationYear ++ [','] ++ showBool b.available ++ ['\n']

/-- The line `saveData` writes for a borrow record: `isbn,dueDate` and a newline. -/
def borrowLine (heap : Heap) (r : Nat × Int) : Str :=
  (heap r.1).isbn ++ [','] ++ showInt r.2 ++ ['\n']

/-- The lines `saveData` writes for a user: `userId,name,email`, then the marker
`[BORROWED]userId`, then one line per borrow record. -/
def userBlock (heap : Heap) (u : User) : Str :=
  u.userId ++ [','] ++ u.name ++ [','] ++ u.email ++ ['\n']
    ++ "[BORROWED]".toList ++ u.userId ++ ['\n']
    ++ (u.borrowedBooks.map (borrowLine heap)).flatten

/-- Method `Library::saveData`: the text written to `library_data.txt` (when the
file can be opened). -/
def Library.saveData (lib : Library) : Str :=
  "[BOOKS]".toList ++ ['\n'] ++ (lib.books.map (fun p => bookLine (lib.heap p))).flatten
    ++ "[USERS]".toList ++ ['\n'] ++ (lib.users.map (userBlock lib.heap)).flatten

/-! ## Catalog operations -/

/-- Method `Library::addBook(Book* book)`: the catalog after the call and the
snapshot written by `saveData`. -/
def Library.addBook (lib : Library) (book : Nat) : Library × Str :=
  let lib' : Library := { lib with books := lib.books ++ [book] }
  (lib', lib'.saveData)

/-- Method `Library::addUser(User* user)`: the catalog after the call and the
snapshot written by `saveData`. -/
def Library.addUser (lib : Library) (user : User) : Library × Str :=
  let lib' : Library := { lib with users := lib.users ++ [user] }
  (lib', lib'.saveData)

/-- Method `Library::findBookByTitle`: the first book of the catalog with this
title, or `nullptr`. -/
def Library.findBookByTitle (lib : Library) (title : Str) : Option Nat :=
  lib.books.find? (fun p => (lib.heap p).title == title)

/-- Method `Library::findBookByIsbn`: the first book of the catalog with this isbn,
or `nullptr`. -/
def Library.findBookByIsbn (lib : Library) (isbn : Str) : Option Nat :=
  lib.books.find? (fun p => (lib.heap p).isbn == isbn)

/-- Method `Library::findUserById`: the first user with this id, or `nullptr`. -/
def Library.findUserById (lib : Library) (userId : Str) : Option Nat :=
  lib.users.findIdx? (fun u => u.userId == userId)

/-- Method `Library::findUserByEmail`: the first user with this email, or
`nullptr`. -/
def Library.findUserByEmail (lib : Library) (email : Str) : Option Nat :=
  lib.users.findIdx? (fun u => u.email == email)

/-- Method `LibraryApp::registerUser` with the three lines read from the console:
the catalog after the call and the snapshot written, if any. -/
def registerUser (lib : Library) (userId name email : Str) : Library × Option Str :=
  if (lib.findUserById userId).isSome then (lib, none)
  else if (lib.findUserByEmail email).isSome then (lib, none)
  else ((lib.addUser (User.new userId name email)).1,
        some (lib.addUser (User.new userId name email)).2)

/-- The user ids of the catalog, in catalog order. -/
def Library.userIds (lib : Library) : List Str := lib.users.map (fun u => u.userId)

/-- The emails of the catalog, in catalog order. -/
def Library.emails (lib : Library) : List Str := lib.users.map (fun u => u.email)

/-! ## Catalog: lookup by genre -/

/-- The comparator of the `sort` call in `findBooksByGenre`:
`a->getGenre() < b->getGenre()`. -/
def genreLess (heap : Heap) (a b : Nat) : Bool :=
  decide ((heap a).genre < (heap b).genre)

/-- The comparator of the `lower_bound` call: `book->getGenre() < genre`. -/
def genreBelow (heap : Heap) (book : Nat) (genre : Str) : Bool :=
  decide ((heap book).genre < genre)

/-- The comparator of the `upper_bound` call: `genre < book->getGenre()`. -/
def genreAbove (heap : Heap) (genre : Str) (book : Nat) : Bool :=
  decide (genre < (heap book).genre)

/-- The postcondition of the standard library call `std::sort(first, last, comp)`:
the output is a rearrangement of the input in which no element compares less than
an element before it.  The order among equivalent elements is not fixed by the
standard, so `std::sort` is a parameter of the functions that call it. -/
def SortPost (comp : Nat → Nat → Bool) (input output : List Nat) : Prop :=
  output.Perm input ∧ output.Pairwise (fun a b => comp b a = false)

instance (comp : Nat → Nat → Bool) (input output : List Nat) :
    Decidable (SortPost comp input output) := by
  unfold SortPost; infer_instance

/-- The standard library call `std::lower_bound(first, last, value, comp)`, as the
index of the iterator it returns: the furthermost position such that `comp(e, value)`
holds for every element `e` before it. -/
def lowerBound (comp : Nat → Str → Bool) (l : List Nat) (value : Str) : Nat :=
  (l.takeWhile (fun e => comp e value)).length

/-- The standard library call `std::upper_bound(first, last, value, comp)`, as the
index of the iterator it returns: the furthermost position such that
`comp(value, e)` is false for every element `e` before it. -/
def upperBound (comp : Str → Nat → Bool) (l : List Nat) (value : Str) : Nat :=
  (l.takeWhile (fun e => !comp value e)).length

/-- The loop `for (auto it = low; it != high; ++it) result.push_back(*it)` with
`it` as an index into `books`: `none` when `it` runs past the end of the vector
(or the fuel runs out). -/
def copyLoop (books : List Nat) (high : Nat) : Nat → Nat → List Nat → Option (List Nat)
  | 0, _, _ => none
  | fuel + 1, it, result =>
    if it = high then some result
    else
      match books[it]? with
      | some b => copyLoop books high fuel (it + 1) (result ++ [b])
      | none => none

/-- Method `Library::findBooksByGenre(genre)`: the vector returned and the catalog
after the call (its `books` vector has been sorted in place by genre). -/
def Library.findBooksByGenre (stdSort : (Nat → Nat → Bool) → List Nat → List Nat)
    (lib : Library) (genre : Str) : Option (List Nat × Library) :=
  let books := stdSort (genreLess lib.heap) lib.books
  let low := lowerBound (genreBelow lib.heap) books genre
  let high := upperBound (genreAbove lib.heap) books genre
  (copyLoop books high (books.length + 1) low []).map
    (fun result => (result, { lib with books := books }))

/-- A sorting function that meets `SortPost`: insertion sort. -/
def insertionSortBy (comp : Nat → Nat → Bool) (l : List Nat) : List Nat :=
  l.insertionSort (fun a b => comp b a = false)

/-! ## Catalog: listing all books -/

/-- The number of values of the type `size_t` (64 bits): `2 ^ 64`. -/
def SIZE_RANGE : Nat := 18446744073709551616

/-- Subtraction `a - b` of two `size_t` values (both below `2 ^ 64`): the result is
taken modulo `2 ^ 64`, that is, it wraps around to `2 ^ 64 - (b - a)` when `a < b`. -/
def sizeSub (a b : Nat) : Nat := if b ≤ a then a - b else SIZE_RANGE - (b - a)

/-- The inner loop of `displayAllBooks`,
`for (size_t j = ...; j < books.size() - i - 1; ++j)`, entered with the current
value of `j`: compares `books[j]` and `books[j+1]` by title and swaps them when the
first is greater.  `none` when an index is outside the vector (or the fuel runs
out). -/
def innerLoop (heap : Heap) (i : Nat) : Nat → Nat → List Nat → Option (List Nat)
  | 0, _, _ => none
  | fuel + 1, j, books =>
    if j < sizeSub (sizeSub books.length i) 1 then
      match books[j]?, books[j + 1]? with
      | some a, some b =>
        innerLoop heap i fuel (j + 1)
          (if (heap a).title > (heap b).title then (books.set j b).set (j + 1) a
           else books)
      | _, _ => none
    else some books

/-- The outer loop of `displayAllBooks`,
`for (size_t i = ...; i < books.size(); ++i)`, entered with the current value of
`i`.  The inner loop gets `books.size() + 1` units of fuel: it leaves or reaches
an index outside the vector before they are used up. -/
def outerLoop (heap : Heap) : Nat → Nat → List Nat → Option (List Nat)
  | 0, _, _ => none
  | fuel + 1, i, books =>
    if i < books.length then
      match innerLoop heap i (books.length + 1) 0 books with
      | some books' => outerLoop heap fuel (i + 1) books'
      | none => none
    else some books

/-- Method `Library::displayAllBooks`: the books printed, in the order printed, and
the catalog after the call (its `books` vector has been bubble-sorted in place).
`none` when the sort indexes outside the vector. -/
def Library.displayAllBooks (lib : Library) : Option (List Book × Library) :=
  (outerLoop lib.heap (lib.books.length + 1) 0 lib.books).map
    (fun books => (books.map lib.heap, { lib with books := books }))

/-- One pass of adjacent compare-and-swap over `a :: l`, carrying the greater
element along (used to describe what the inner loop computes). -/
def bubbleFrom (heap : Heap) (a : Nat) : List Nat → List Nat
  | [] => [a]
  | b :: t =>
    if (heap a).title > (heap b).title then b :: bubbleFrom heap a t
    else a :: bubbleFrom heap b t

/-! ## Persistence: reading the snapshot -/

/-- An input string stream (`stringstream` over one line): the characters not yet
read and the state bits `eofbit` and `failbit`. -/
structure IStream where
  buf : Str
  eof : Bool
  fail : Bool
deriving DecidableEq

/-- The constructor `stringstream ss(line)`. -/
def IStream.ofLine (line : Str) : IStream := { buf := line, eof := false, fail := false }

/-- The test `good()`: no state bit is set. -/
def IStream.good (s : IStream) : Bool := !s.eof && !s.fail

/-- The characters before the first `delim` and, when there is one, the characters
after it. -/
def splitDelim (delim : Char) : Str → Str × Option Str
  | [] => ([], none)
  | c :: cs =>
    if c = delim then ([], some cs)
    else ((c :: (splitDelim delim cs).1), (splitDelim delim cs).2)

/-- The call `getline(ss, str, delim)` into a freshly declared (empty) string: the
string read and the stream afterwards.  When the stream is not good nothing is
read and `failbit` is set; when the end is reached before a delimiter `eofbit` is
set, and `failbit` too if no character was extracted. -/
def IStream.getline (s : IStream) (delim : Char) : Str × IStream :=
  if s.good then
    match splitDelim delim s.buf with
    | (field, some rest) => (field, { s with buf := rest })
    | (field, none) => (field, { buf := [], eof := true, fail := field.isEmpty })
  else ([], { s with fail := true })

/-- The test `isspace` of the classic locale. -/
def isSpace (c : Char) : Bool := c = ' ' || (9 ≤ c.toNat && c.toNat ≤ 13)

/-- The test for a decimal digit. -/
def isDigit (c : Char) : Bool := 48 ≤ c.toNat && c.toNat ≤ 57

/-- The value of a sequence of decimal digits. -/
def digitsValue (ds : Str) : Nat := ds.foldl (fun n c => 10 * n + (c.toNat - 48)) 0

/-- The formatted extraction `ss >> x` of a signed integer whose type has the range
`lo .. hi`.  `none` means that `x` is not written (the stream was not good, or only
white space was left); otherwise leading white space is skipped, an optional sign
and the digits are read; without a digit `x` becomes 0 and `failbit` is set; a value
out of range is clamped and `failbit` is set. -/
def IStream.readInt (lo hi : Int) (s : IStream) : Option Int × IStream :=
  if s.good then
    match s.buf.dropWhile isSpace with
    | [] => (none, { buf := [], eof := true, fail := true })
    | c :: cs =>
      let body := if c = '-' || c = '+' then cs else c :: cs
      let ds := body.takeWhile isDigit
      let rest := body.dropWhile isDigit
      if ds.isEmpty then (some 0, { buf := rest, eof := rest.isEmpty, fail := true })
      else
        let v : Int := if c = '-' then -(digitsValue ds : Int) else (digitsValue ds : Int)
        if v < lo then (some lo, { buf := rest, eof := rest.isEmpty, fail := true })
        else if hi < v then (some hi, { buf := rest, eof := rest.isEmpty, fail := true })
        else (some v, { buf := rest, eof := rest.isEmpty, fail := false })
  else (none, { s with fail := true })

/-- The least value of `int` (32 bits). -/
def INT_MIN : Int := -2147483648

/-- The greatest value of `int` (32 bits). -/
def INT_MAX : Int := 2147483647

/-- The least value of `long` and `time_t` (64 bits). -/
def LONG_MIN : Int := -9223372036854775808

/-- The greatest value of `long` and `time_t` (64 bits). -/
def LONG_MAX : Int := 9223372036854775807

/-- The formatted extraction `ss >> b` of a `bool` (no `boolalpha`): a `long` is
read; 0 gives false, 1 gives true, any other value gives true and sets `failbit`. -/
def IStream.readBool (s : IStream) : Option Bool × IStream :=
  match s.readInt LONG_MIN LONG_MAX with
  | (none, s') => (none, s')
  | (some v, s') =>
    if v = 0 then (some false, s')
    else if v = 1 then (some true, s')
    else (some true, { s' with fail := true })

/-- The call `ss.ignore()`: one character is dropped when the stream is good. -/
def IStream.ignore (s : IStream) : IStream :=
  if s.good then
    match s.buf with
    | [] => { s with eof := true }
    | _ :: cs => { s with buf := cs }
  else { s with fail := true }

/-- The lines that the successive calls `getline(inFile, line)` return: the text
is cut at every newline; a last piece without a newline is a line when it is not
empty.  `cur` is the part of the current line already read. -/
def linesFrom : Str → Str → List Str
  | cur, [] => if cur.isEmpty then [] else [cur]
  | cur, c :: cs => if c = '\n' then cur :: linesFrom [] cs else linesFrom (cur ++ [c]) cs

/-- The test `s.find(pat) != string::npos`: `pat` occurs in `s`. -/
def containsSub (pat : Str) : Str → Bool
  | [] => pat.isEmpty
  | c :: cs => pat.isPrefixOf (c :: cs) || containsSub pat cs

/-- The assignment `book` of a new object to the address `p`. -/
def Heap.store (h : Heap) (p : Nat) (b : Book) : Heap :=
  fun q => if q = p then b else h q

/-- The local variables of `loadData` that live across the lines, with the catalog
being built. -/
structure LoadState where
  lib : Library
  sectionName : Str
  currentUser : Option Nat

/-- The branch `section == "[BOOKS]"` of `loadData` for one line.  `none` when the
uninitialised `publicationYear` or `available` is read.  The object made by
`new Book` is stored at the first address not yet used by the load (every object the
load has allocated is in `books`). -/
def loadBookLine (st : LoadState) (line : Str) : Option LoadState :=
  let r1 := (IStream.ofLine line).getline ','
  let r2 := r1.2.getline ','
  let r3 := r2.2.getline ','
  let r4 := r3.2.getline ','
  let r5 := r4.2.readInt INT_MIN INT_MAX
  let r6 := r5.2.ignore.readBool
  match r5.1, r6.1 with
  | some publicationYear, some available =>
    let book := st.lib.books.length
    some { st with lib := { st.lib with
      heap := st.lib.heap.store book
        ((Book.new r1.1 r2.1 r3.1 r4.1 publicationYear).setAvailable available),
      books := st.lib.books ++ [book] } }
  | _, _ => none

/-- The branch `section == "[USERS]"` of `loadData` for one line. -/
def loadUserLine (st : LoadState) (line : Str) : LoadState :=
  let r1 := (IStream.ofLine line).getline ','
  let r2 := r1.2.getline ','
  let r3 := r2.2.getline ','
  { st with lib := { st.lib with users := st.lib.users ++ [User.new r1.1 r2.1 r3.1] },
            currentUser := some st.lib.users.length }

/-- The assignment `borrowedBooks.back().second = dueDate`. -/
def setBackDueDate (rs : List (Nat × Int)) (dueDate : Int) : List (Nat × Int) :=
  match rs.getLast? with
  | some r => rs.dropLast ++ [(r.1, dueDate)]
  | none => rs

/-- The branch `section.find("[BORROWED]") != npos` of `loadData` for one line, at
time `now`.  `none` when the uninitialised `dueDate` is read. -/
def loadBorrowLine (now : Int) (st : LoadState) (line : Str) : Option LoadState :=
  match st.currentUser with
  | none => some st
  | some cu =>
    let r1 := (IStream.ofLine line).getline ','
    let r2 := r1.2.readInt LONG_MIN LONG_MAX
    match st.lib.findBookByIsbn r1.1 with
    | none => some st
    | some book =>
      let lib := (st.lib.borrowBook now cu (some book)).2
      match lib.users[cu]? with
      | none => some { st with lib := lib }
      | some u =>
        if u.borrowedBooks.isEmpty then some { st with lib := lib }
        else
          match r2.1 with
          | none => none
          | some dueDate =>
            let u' : User := { u with borrowedBooks := setBackDueDate u.borrowedBooks dueDate }
            some { st with lib := { lib with users := lib.users.set cu u' } }

/-- The body of the loop `while (getline(inFile, line))` of `loadData`. -/
def loadLine (now : Int) (st : LoadState) (line : Str) : Option LoadState :=
  match line with
  | [] => some st
  | c :: _ =>
    if c = '[' then some { st with sectionName := line }
    else if st.sectionName = "[BOOKS]".toList then loadBookLine st line
    else if st.sectionName = "[USERS]".toList then some (loadUserLine st line)
    else if containsSub "[BORROWED]".toList st.sectionName then loadBorrowLine now st line
    else some st

/-- The loop of `loadData` over the lines of the file. -/
def loadLines (now : Int) : LoadState → List Str → Option LoadState
  | st, [] => some st
  | st, line :: rest =>
    match loadLine now st line with
    | some st' => loadLines now st' rest
    | none => none

/-- Method `Library::loadData`, run at time `now` on the catalog `lib` (the
constructor runs it on the empty catalog); `file` is the content of
`library_data.txt`, `none` when the file cannot be opened.  The result is `none`
when the load reads an uninitialised variable. -/
def Library.loadData (now : Int) (file : Option Str) (lib : Library) : Option Library :=
  match file with
  | none => some lib
  | some text =>
    (loadLines now { lib := lib, sectionName := [], currentUser := none }
      (linesFrom [] text)).map (fun st => st.lib)

/-- The books of the catalog as values, in catalog order. -/
def Library.bookValues (lib : Library) : List Book := lib.books.map lib.heap

/-- A user as a value: userId, name, email and the borrow records as pairs of isbn
and due date. -/
structure UserValue where
  userId : Str
  name : Str
  email : Str
  records : List (Str × Int)
deriving DecidableEq

/-- The users of the catalog as values, in catalog order. -/
def Library.userValues (lib : Library) : List UserValue :=
  lib.users.map (fun u => UserValue.mk u.userId u.name u.email
    (u.borrowedBooks.map (fun r => ((lib.heap r.1).isbn, r.2))))

/-- The entries (userId, name, email) of the users list, in order. -/
def Library.userEntries (lib : Library) : List (Str × Str × Str) :=
  lib.users.map (fun u => (u.userId, u.name, u.email))

/-! ## Concrete states used as examples -/

/-- A heap in which every address holds the book `A` by `X` with isbn `i1`. -/
def heapA (available : Bool) : Heap :=
  fun _ => { Book.new "A".toList "X".toList "i1".toList "g".toList 2000 with
             available := available }

/-- User `u1` with the given borrow records. -/
def userU1 (rs : List (Nat × Int)) : User :=
  { User.new "u1".toList "N".toList "n@x".toList with borrowedBooks := rs }

/-- User `u2` with the given borrow records. -/
def userU2 (rs : List (Nat × Int)) : User :=
  { User.new "u2".toList "M".toList "m@x".toList with borrowedBooks := rs }

/-- A catalog with the single book `A` (available) at address 0, in which both
`u1` and `u2` hold a borrow record for it. -/
def libTwoHolders : Library :=
  { heap := heapA true, books := [0], users := [userU1 [(0, 5)], userU2 [(0, 6)]] }

/-- A catalog with the single book `A` (borrowed) at address 0, held by `u1`;
`u2` holds nothing. -/
def libOneHolder : Library :=
  { heap := heapA false, books := [0], users := [userU1 [(0, 5)], userU2 []] }

/-- The heap that stores the given books at addresses 0, 1, 2, ... -/
def heapOfList (bs : List Book) : Heap :=
  fun p => bs.getD p (Book.new [] [] [] [] 0)

/-- Three books with genres sci-fi, sci-fi, fantasy. -/
def threeBooks : List Book :=
  [Book.new "Dune".toList "Herbert".toList "i1".toList "sci-fi".toList 1965,
   Book.new "Neuromancer".toList "Gibson".toList "i2".toList "sci-fi".toList 1984,
   Book.new "Hobbit".toList "Tolkien".toList "i3".toList "fantasy".toList 1937]

/-- The catalog of the three books in the order sci-fi, sci-fi, fantasy, with the
users `u1` and `u2` and no borrow. -/
def libGenres : Library :=
  { heap := heapOfList threeBooks, books := [0, 1, 2], users := [userU1 [], userU2 []] }

/-- The catalog with the first two of the three books only. -/
def libTwoBooks : Library :=
  { heap := heapOfList threeBooks, books := [0, 1], users := [userU1 [], userU2 []] }

/-- User `u3`, not in any of the example catalogs. -/
def userU3 : User := User.new "u3".toList "K".toList "k@x".toList

/-- A catalog with two books of the same title `A`: the first has isbn `i2`, the
second isbn `i1`. -/
def libTie : Library :=
  { heap := heapOfList
      [Book.new "A".toList "X".toList "i2".toList "g".toList 2000,
       Book.new "A".toList "Y".toList "i1".toList "g".toList 2001],
    books := [0, 1], users := [] }

/-- The empty catalog, as built by the constructor before `loadData`. -/
def Library.empty : Library :=
  { heap := heapOfList [], books := [], users := [] }

/-- A valid catalog with 3 books, 2 users and 1 active borrow: `u1` holds the first
book (isbn `i1`) with due date 1700000000. -/
def libSnapshot : Library :=
  { heap := (heapOfList threeBooks).setAvailable 0 false, books := [0, 1, 2],
    users := [userU1 [(0, 1700000000)], userU2 []] }

/-- A catalog without books and with the two users `u1` and `u2`, no borrow. -/
def libTwoUsers : Library :=
  { heap := heapOfList [], books := [], users := [userU1 [], userU2 []] }

/-- A snapshot text with two books (`i1` available, `i2` not) and the user `u1`
with the borrow lines `i1,100` and `i2,200`. -/
def textTwoBorrows : Str :=
  ("[BOOKS]\nDune,Herbert,i1,sci-fi,1965,1\nNeuromancer,Gibson,i2,sci-fi,1984,0\n"
    ++ "[USERS]\nu1,N,n@x\n[BORROWED]u1\ni1,100\ni2,200\n").toList

/-- A stored field is valid: not empty, without comma or newline, and not starting
with an opening bracket. -/
def validField (f : Str) : Bool :=
  !f.isEmpty && !f.contains ',' && !f.contains '\n' && f.head? != some '['

/-- Every stored string field of the catalog is valid. -/
def Library.validFields (lib : Library) : Bool :=
  lib.books.all (fun p => validField (lib.heap p).title && validField (lib.heap p).author
    && validField (lib.heap p).isbn && validField (lib.heap p).genre)
  && lib.users.all (fun u => validField u.userId && validField u.name && validField u.email)

/-- A valid catalog with 1 book, 1 user and 1 active borrow: `u1` holds the book
`A` (isbn `i1`) with due date 100. -/
def libOneBorrow : Library :=
  { heap := heapA false, books := [0], users := [userU1 [(0, 100)]] }

/-- A catalog without books and with the single user `u1`, no borrow. -/
def libOneUser : Library :=
  { heap := heapOfList [], books := [], users := [userU1 []] }

/-! # Theorems -/

/-! ## Borrow engine: single calls -/

theorem split_at {α : Type} (l : List α) (i : Nat) (u : α) (h : l[i]? = some u) :
    ∃ a b, l = a ++ u :: b ∧ ∀ u', l.set i u' = a ++ u' :: b := by
  induction l generalizing i with
  | nil => simp at h
  | cons x xs ih =>
    cases i with
    | zero =>
      simp at h
      subst h
      exact ⟨[], xs, rfl, fun _ => rfl⟩
    | succ n =>
      simp at h
      obtain ⟨a, b, e, hs⟩ := ih n h
      exact ⟨x :: a, b, by simp [e], fun u' => by simp [hs]⟩

theorem returnLoop_split (p : Nat) (l : List (Nat × Int))
    (h : ∃ r ∈ l, r.1 = p) :
    ∃ pre d post, l = pre ++ (p, d) :: post ∧ (∀ r ∈ pre, r.1 ≠ p) ∧
      returnLoop (some p) l = some (pre ++ post) := by
  induction l with
  | nil => simp at h
  | cons r rs ih =>
    by_cases hr : r.1 = p
    · refine ⟨[], r.2, rs, ?_, by simp, ?_⟩
      · simp [← hr]
      · simp [returnLoop, hr]
    · have h' : ∃ r ∈ rs, r.1 = p := by
        obtain ⟨x, hx, hxp⟩ := h
        rcases List.mem_cons.1 hx with rfl | hx
        · exact absurd hxp hr
        · exact ⟨x, hx, hxp⟩
      obtain ⟨pre, d, post, h1, h2, h3⟩ := ih h'
      refine ⟨r :: pre, d, post, by simp [h1], ?_, ?_⟩
      · intro x hx
        rcases List.mem_cons.1 hx with rfl | hx
        · exact hr
        · exact h2 x hx
      · simp [returnLoop, hr, h3]

theorem returnLoop_none (book : Option Nat) (l : List (Nat × Int))
    (h : ∀ r ∈ l, some r.1 ≠ book) : returnLoop book l = none := by
  induction l with
  | nil => rfl
  | cons r rs ih =>
    have h1 : some r.1 ≠ book := h r (List.mem_cons_self _ _)
    have h2 : ∀ x ∈ rs, some x.1 ≠ book := fun x hx => h x (List.mem_cons_of_mem _ hx)
    simp [returnLoop, h1, ih h2]

/-- C2. A successful borrow: for every user and every available book,
`borrowBook` at time `now` returns true, sets the book's flag to false (leaving
every other object of the heap as it was) and appends exactly one record, for this
book and with due date `now + 14 * 86400`, at the end of the user's list. -/
theorem borrowBook_available (now : Int) (heap : Heap) (u : User) (p : Nat)
    (h : (heap p).available = true) :
    (u.borrowBook now heap (some p)).1 = true ∧
    ((u.borrowBook now heap (some p)).2.1 p).available = false ∧
    (∀ q, q ≠ p → (u.borrowBook now heap (some p)).2.1 q = heap q) ∧
    (u.borrowBook now heap (some p)).2.2.borrowedBooks =
      u.borrowedBooks ++ [(p, now + 14 * 86400)] ∧
    (u.borrowBook now heap (some p)).2.2.userId = u.userId ∧
    (u.borrowBook now heap (some p)).2.2.name = u.name ∧
    (u.borrowBook now heap (some p)).2.2.email = u.email := by
  have e : u.borrowBook now heap (some p) = (true, heap.setAvailable p false,
      { u with borrowedBooks := u.borrowedBooks ++ [(p, now + 14 * 24 * 60 * 60)] }) := by
    simp [User.borrowBook, h]
  rw [e]
  refine ⟨rfl, ?_, ?_, ?_, rfl, rfl, rfl⟩
  · simp [Heap.setAvailable, Book.setAvailable]
  · intro q hq
    simp [Heap.setAvailable, hq]
  · norm_num

theorem borrowBook_available_witness :
    ((userU1 []).borrowBook 1000 (heapA true) (some 0)).1 = true ∧
    (((userU1 []).borrowBook 1000 (heapA true) (some 0)).2.1 0).available = false ∧
    (∀ q, q ≠ 0 → ((userU1 []).borrowBook 1000 (heapA true) (some 0)).2.1 q
      = heapA true q) ∧
    ((userU1 []).borrowBook 1000 (heapA true) (some 0)).2.2.borrowedBooks =
      (userU1 []).borrowedBooks ++ [(0, 1000 + 14 * 86400)] ∧
    ((userU1 []).borrowBook 1000 (heapA true) (some 0)).2.2.userId = (userU1 []).userId ∧
    ((userU1 []).borrowBook 1000 (heapA true) (some 0)).2.2.name = (userU1 []).name ∧
    ((userU1 []).borrowBook 1000 (heapA true) (some 0)).2.2.email = (userU1 []).email :=
  borrowBook_available 1000 (heapA true) (userU1 []) 0 (by decide)

/-- C3. Borrowing a borrowed book fails atomically: for every user (the current
holder included) and every book whose flag is false, `borrowBook` returns false
and leaves the heap (so the book's flag) and the user unchanged. -/
theorem borrowBook_unavailable (now : Int) (heap : Heap) (u : User) (p : Nat)
    (h : (heap p).available = false) :
    u.borrowBook now heap (some p) = (false, heap, u) := by
  simp [User.borrowBook, h]

theorem borrowBook_unavailable_witness :
    (userU1 [(0, 5)]).borrowBook 1000 (heapA false) (some 0)
      = (false, heapA false, userU1 [(0, 5)]) :=
  borrowBook_unavailable 1000 (heapA false) (userU1 [(0, 5)]) 0 (by decide)

/-- C5. Return by a non-holder fails atomically: when the user at index `i` holds no
record for the book (available, or borrowed by somebody else), `returnBook` returns
false and the whole catalog state (this user's records, every other user's records,
the book's flag) is unchanged. -/
theorem returnBook_nonholder (lib : Library) (i : Nat) (u : User) (p : Nat)
    (hu : lib.users[i]? = some u) (h : ∀ r ∈ u.borrowedBooks, r.1 ≠ p) :
    lib.returnBook i (some p) = (false, lib) := by
  have hn : returnLoop (some p) u.borrowedBooks = none :=
    returnLoop_none (some p) u.borrowedBooks (fun r hr e => h r hr (Option.some.inj e))
  have hs : lib.users.set i u = lib.users := by
    obtain ⟨a, b, e, hset⟩ := split_at lib.users i u hu
    rw [hset u, ← e]
  simp [Library.returnBook, hu, User.returnBook, hn, hs]

theorem returnBook_nonholder_witness :
    libOneHolder.returnBook 1 (some 0) = (false, libOneHolder) :=
  returnBook_nonholder libOneHolder 1 (userU2 []) 0 (by decide) (by decide)

/-- Return by the holder in a state where the book is borrowed and the user's record
for it is not the last one: the call returns true, the flag becomes true and the
other record stays. -/
theorem returnBook_holder_first_of_two :
    ((userU1 [(0, 5), (1, 6)]).returnBook
        ((heapOfList threeBooks).setAvailable 0 false) (some 0)).1 = true ∧
    (((userU1 [(0, 5), (1, 6)]).returnBook
        ((heapOfList threeBooks).setAvailable 0 false) (some 0)).2.1 0).available = true ∧
    ((userU1 [(0, 5), (1, 6)]).returnBook
        ((heapOfList threeBooks).setAvailable 0 false) (some 0)).2.2.borrowedBooks
      = [(1, 6)] := by
  decide

theorem any_eq_countP_pos (p : Nat) (l : List (Nat × Int)) :
    (l.any (fun r => r.1 == p) = true) ↔ 0 < l.countP (fun r => r.1 == p) := by
  rw [List.countP_pos_iff]
  simp

theorem holders_eq_records (p : Nat) (l : List User)
    (h : (l.map (fun u => u.borrowedBooks.countP (fun r => r.1 == p))).sum ≤ 1) :
    l.countP (fun u => u.borrowedBooks.any (fun r => r.1 == p))
      = (l.map (fun u => u.borrowedBooks.countP (fun r => r.1 == p))).sum := by
  induction l with
  | nil => rfl
  | cons u us ih =>
    simp only [List.map_cons, List.sum_cons] at h ⊢
    have ih' := ih (by omega)
    rw [List.countP_cons, ih']
    by_cases hu : u.borrowedBooks.any (fun r => r.1 == p) = true
    · have := (any_eq_countP_pos p u.borrowedBooks).1 hu
      rw [if_pos hu]
      omega
    · have hz : ¬ 0 < u.borrowedBooks.countP (fun r => r.1 == p) :=
        fun h0 => hu ((any_eq_countP_pos p u.borrowedBooks).2 h0)
      rw [if_neg hu]
      omega

/-- The two invariants together say: every catalog book has at most one record, and
is unavailable exactly when it has one. -/
theorem inv_iff_records (lib : Library) :
    (AvailabilityInv lib ∧ AtMostOneRecord lib) ↔
      ∀ p ∈ lib.books, lib.records p ≤ 1 ∧
        ((lib.heap p).available = false ↔ lib.records p = 1) := by
  constructor
  · rintro ⟨h1, h2⟩ p hp
    have e : lib.holders p = lib.records p := holders_eq_records p lib.users (h2 p hp)
    exact ⟨h2 p hp, by rw [← e]; exact h1 p hp⟩
  · intro h
    refine ⟨fun p hp => ?_, fun p hp => (h p hp).1⟩
    have e : lib.holders p = lib.records p := holders_eq_records p lib.users (h p hp).1
    rw [e]
    exact (h p hp).2

theorem records_set (lib : Library) (i : Nat) (u u' : User) (heap' : Heap)
    (h : lib.users[i]? = some u) (q : Nat) :
    Library.records { lib with heap := heap', users := lib.users.set i u' } q
        + u.borrowedBooks.countP (fun r => r.1 == q)
      = lib.records q + u'.borrowedBooks.countP (fun r => r.1 == q) := by
  obtain ⟨a, b, e, hset⟩ := split_at lib.users i u h
  simp only [Library.records, hset u']
  rw [e]
  simp only [List.map_append, List.map_cons, List.sum_append, List.sum_cons]
  omega

theorem set_same (lib : Library) (i : Nat) (u : User) (h : lib.users[i]? = some u) :
    ({ lib with heap := lib.heap, users := lib.users.set i u } : Library) = lib := by
  obtain ⟨a, b, e, hset⟩ := split_at lib.users i u h
  rw [hset u, ← e]

/-- A step that touches only the book at `p` and only records for `p` keeps the
invariants, provided they hold for `p` afterwards. -/
theorem inv_step (lib lib' : Library) (p : Nat) (hbooks : lib'.books = lib.books)
    (hheap : ∀ q, q ≠ p → lib'.heap q = lib.heap q)
    (hrec : ∀ q, q ≠ p → lib'.records q = lib.records q)
    (hp : lib.records p ≤ 1 → ((lib.heap p).available = false ↔ lib.records p = 1) →
      lib'.records p ≤ 1 ∧ ((lib'.heap p).available = false ↔ lib'.records p = 1))
    (h : AvailabilityInv lib ∧ AtMostOneRecord lib) :
    AvailabilityInv lib' ∧ AtMostOneRecord lib' := by
  rw [inv_iff_records] at h ⊢
  intro q hq
  rw [hbooks] at hq
  by_cases hqp : q = p
  · subst hqp
    exact hp (h q hq).1 (h q hq).2
  · rw [hheap q hqp, hrec q hqp]
    exact h q hq

theorem countP_other (p q : Nat) (d : Int) (hqp : q ≠ p) (l : List (Nat × Int)) :
    (l ++ [(p, d)]).countP (fun r => r.1 == q) = l.countP (fun r => r.1 == q) := by
  simp [List.countP_append, List.countP_cons, Ne.symm hqp]

theorem countP_same (p : Nat) (d : Int) (l : List (Nat × Int)) :
    (l ++ [(p, d)]).countP (fun r => r.1 == p) = l.countP (fun r => r.1 == p) + 1 := by
  simp [List.countP_append, List.countP_cons]

theorem borrow_preserves (now : Int) (lib : Library) (i p : Nat)
    (h : AvailabilityInv lib ∧ AtMostOneRecord lib) :
    AvailabilityInv (lib.borrowBook now i (some p)).2 ∧
      AtMostOneRecord (lib.borrowBook now i (some p)).2 := by
  cases hu : lib.users[i]? with
  | none => simpa [Library.borrowBook, hu] using h
  | some u =>
    cases hav : (lib.heap p).available with
    | false =>
      have e : (lib.borrowBook now i (some p)).2 = lib := by
        simp [Library.borrowBook, hu, User.borrowBook, hav]
        exact set_same lib i u hu
      rw [e]; exact h
    | true =>
      have e : (lib.borrowBook now i (some p)).2 =
          { lib with heap := lib.heap.setAvailable p false,
                     users := lib.users.set i { u with borrowedBooks :=
                      u.borrowedBooks ++ [(p, now + 14 * 24 * 60 * 60)] } } := by
        simp [Library.borrowBook, hu, User.borrowBook, hav]
      rw [e]
      refine inv_step lib _ p rfl ?_ ?_ ?_ h
      · intro q hq
        simp [Heap.setAvailable, hq]
      · intro q hq
        have hr := records_set lib i u { u with borrowedBooks :=
          u.borrowedBooks ++ [(p, now + 14 * 24 * 60 * 60)] }
          (lib.heap.setAvailable p false) hu q
        rw [countP_other p q _ hq] at hr
        omega
      · intro h1 h2
        have hr := records_set lib i u { u with borrowedBooks :=
          u.borrowedBooks ++ [(p, now + 14 * 24 * 60 * 60)] }
          (lib.heap.setAvailable p false) hu p
        rw [countP_same] at hr
        have h0 : lib.records p ≠ 1 := fun h1 => by
          have := h2.2 h1
          rw [hav] at this
          exact Bool.noConfusion this
        simp only [Heap.setAvailable, Book.setAvailable, if_true]
        constructor
        · omega
        · constructor
          · intro _; omega
          · intro _; trivial

theorem return_preserves (lib : Library) (i p : Nat)
    (h : AvailabilityInv lib ∧ AtMostOneRecord lib) :
    AvailabilityInv (lib.returnBook i (some p)).2 ∧
      AtMostOneRecord (lib.returnBook i (some p)).2 := by
  cases hu : lib.users[i]? with
  | none => simpa [Library.returnBook, hu] using h
  | some u =>
    by_cases hold : ∃ r ∈ u.borrowedBooks, r.1 = p
    · obtain ⟨pre, d, post, h1, h2, h3⟩ := returnLoop_split p u.borrowedBooks hold
      have e : (lib.returnBook i (some p)).2 =
          { lib with heap := lib.heap.setAvailable p true,
                     users := lib.users.set i { u with borrowedBooks := pre ++ post } } := by
        simp [Library.returnBook, hu, User.returnBook, h3]
      rw [e]
      have hc : ∀ q, u.borrowedBooks.countP (fun r => r.1 == q) =
          (pre ++ post).countP (fun r => r.1 == q) + (if q = p then 1 else 0) := by
        intro q
        rw [h1]
        simp only [List.countP_append, List.countP_cons]
        by_cases hq : q = p
        · simp [hq]; omega
        · simp [hq, Ne.symm hq]
      refine inv_step lib _ p rfl ?_ ?_ ?_ h
      · intro q hq
        simp [Heap.setAvailable, hq]
      · intro q hq
        have hr := records_set lib i u { u with borrowedBooks := pre ++ post }
          (lib.heap.setAvailable p true) hu q
        rw [hc q, if_neg hq] at hr
        simp only at hr
        omega
      · intro h1 h2
        have hr := records_set lib i u { u with borrowedBooks := pre ++ post }
          (lib.heap.setAvailable p true) hu p
        rw [hc p, if_pos rfl] at hr
        simp only at hr
        simp only [Heap.setAvailable, Book.setAvailable, if_true]
        constructor
        · omega
        · constructor
          · intro hf; exact Bool.noConfusion hf
          · intro h1; omega
    · have e : (lib.returnBook i (some p)).2 = lib := by
        have hn : returnLoop (some p) u.borrowedBooks = none :=
          returnLoop_none (some p) u.borrowedBooks
            (fun r hr e => hold ⟨r, hr, Option.some.inj e⟩)
        simp [Library.returnBook, hu, User.returnBook, hn]
        exact set_same lib i u hu
      rw [e]; exact h

theorem borrowBook_books (now : Int) (lib : Library) (i : Nat) (book : Option Nat) :
    (lib.borrowBook now i book).2.books = lib.books := by
  unfold Library.borrowBook
  cases lib.users[i]? <;> rfl

theorem returnBook_books (lib : Library) (i : Nat) (book : Option Nat) :
    (lib.returnBook i book).2.books = lib.books := by
  unfold Library.returnBook
  cases lib.users[i]? <;> rfl

theorem setAvailable_isbn (heap : Heap) (p : Nat) (b : Bool) (q : Nat) :
    (heap.setAvailable p b q).isbn = (heap q).isbn := by
  unfold Heap.setAvailable
  split <;> rfl

theorem borrowBook_isbn (now : Int) (lib : Library) (i : Nat) (book : Option Nat)
    (q : Nat) : ((lib.borrowBook now i book).2.heap q).isbn = (lib.heap q).isbn := by
  unfold Library.borrowBook
  cases lib.users[i]? with
  | none => rfl
  | some u =>
    cases book with
    | none => rfl
    | some p =>
      simp only [User.borrowBook]
      split
      · exact setAvailable_isbn _ _ _ _
      · rfl

theorem returnBook_isbn (lib : Library) (i : Nat) (book : Option Nat)
    (q : Nat) : ((lib.returnBook i book).2.heap q).isbn = (lib.heap q).isbn := by
  unfold Library.returnBook
  cases lib.users[i]? with
  | none => rfl
  | some u =>
    simp only [User.returnBook]
    split
    · exact setAvailable_isbn _ _ _ _
    · rfl

/-- C1 (as amended). The availability invariant together with the invariant that
every book appears in at most one borrow record across all users is preserved by
the borrow engine: for every catalog state satisfying both, every user index and
every book, the state after `borrowBook` and the state after `returnBook` satisfy
both again (whether the call succeeds or fails), and the isbns of the catalog are
unchanged (so they stay pairwise distinct). -/
theorem availability_preserved (now : Int) (lib : Library) (i p : Nat)
    (h1 : AvailabilityInv lib) (h2 : AtMostOneRecord lib) :
    (AvailabilityInv (lib.borrowBook now i (some p)).2 ∧
      AtMostOneRecord (lib.borrowBook now i (some p)).2 ∧
      (lib.borrowBook now i (some p)).2.isbns = lib.isbns) ∧
    (AvailabilityInv (lib.returnBook i (some p)).2 ∧
      AtMostOneRecord (lib.returnBook i (some p)).2 ∧
      (lib.returnBook i (some p)).2.isbns = lib.isbns) := by
  refine ⟨⟨(borrow_preserves now lib i p ⟨h1, h2⟩).1,
      (borrow_preserves now lib i p ⟨h1, h2⟩).2, ?_⟩,
    ⟨(return_preserves lib i p ⟨h1, h2⟩).1, (return_preserves lib i p ⟨h1, h2⟩).2, ?_⟩⟩
  · simp only [Library.isbns, borrowBook_books, borrowBook_isbn]
  · simp only [Library.isbns, returnBook_books, returnBook_isbn]

theorem availability_preserved_witness :
    (AvailabilityInv (libOneHolder.borrowBook 1000 0 (some 0)).2 ∧
      AtMostOneRecord (libOneHolder.borrowBook 1000 0 (some 0)).2 ∧
      (libOneHolder.borrowBook 1000 0 (some 0)).2.isbns = libOneHolder.isbns) ∧
    (AvailabilityInv (libOneHolder.returnBook 0 (some 0)).2 ∧
      AtMostOneRecord (libOneHolder.returnBook 0 (some 0)).2 ∧
      (libOneHolder.returnBook 0 (some 0)).2.isbns = libOneHolder.isbns) :=
  availability_preserved 1000 libOneHolder 0 0 (by decide) (by decide)

/-- C1 (as stated) fails: in `libTwoHolders` the isbns are pairwise distinct and
book `A` is available while two users hold a record for it, so "unavailable iff
exactly one user holds a record" holds; after `u1` returns the book exactly one
user holds a record and the book is available, and after `u1` borrows it the book
is unavailable while two users hold a record. -/
theorem availability_alone_not_preserved :
    libTwoHolders.isbns.Nodup ∧ AvailabilityInv libTwoHolders ∧
    0 < libTwoHolders.users.length ∧ 0 ∈ libTwoHolders.books ∧
    ¬ AvailabilityInv (libTwoHolders.returnBook 0 (some 0)).2 ∧
    ¬ AvailabilityInv (libTwoHolders.borrowBook 1000 0 (some 0)).2 := by
  decide

/-! ## Catalog: adding books and users -/

theorem findIdx_isSome {α : Type} (f : α → Bool) (l : List α) :
    (l.findIdx? f).isSome = l.any f := by
  induction l with
  | nil => rfl
  | cons x xs ih =>
    rw [List.findIdx?_cons]
    by_cases hx : f x = true
    · simp [hx]
    · simp [hx, ih]

theorem findUserById_isSome (lib : Library) (userId : Str) :
    (lib.findUserById userId).isSome = true ↔ userId ∈ lib.userIds := by
  unfold Library.findUserById Library.userIds
  rw [findIdx_isSome]
  simp only [List.any_eq_true, List.mem_map, beq_iff_eq]

theorem findUserByEmail_isSome (lib : Library) (email : Str) :
    (lib.findUserByEmail email).isSome = true ↔ email ∈ lib.emails := by
  unfold Library.findUserByEmail Library.emails
  rw [findIdx_isSome]
  simp only [List.any_eq_true, List.mem_map, beq_iff_eq]

theorem nodup_snoc {α : Type} (l : List α) (a : α) (h : l.Nodup) (ha : a ∉ l) :
    (l ++ [a]).Nodup := by
  rw [List.nodup_append]
  refine ⟨h, List.nodup_singleton a, ?_⟩
  intro x hx hx'
  rw [List.mem_singleton] at hx'
  subst hx'
  exact ha hx

theorem not_nodup_snoc {α : Type} (l : List α) (a : α) (ha : a ∈ l) :
    ¬ (l ++ [a]).Nodup := by
  intro h
  rw [List.nodup_append] at h
  exact h.2.2 ha (List.mem_singleton_self a)

theorem registerUser_fresh (lib : Library) (userId name email : Str)
    (h1 : userId ∉ lib.userIds) (h2 : email ∉ lib.emails) :
    registerUser lib userId name email =
      ((lib.addUser (User.new userId name email)).1,
        some (lib.addUser (User.new userId name email)).2) := by
  unfold registerUser
  have e1 : ¬ (lib.findUserById userId).isSome = true :=
    fun h => h1 ((findUserById_isSome lib userId).1 h)
  have e2 : ¬ (lib.findUserByEmail email).isSome = true :=
    fun h => h2 ((findUserByEmail_isSome lib email).1 h)
  rw [if_neg e1, if_neg e2]

theorem registerUser_duplicate (lib : Library) (userId name email : Str)
    (h : userId ∈ lib.userIds ∨ email ∈ lib.emails) :
    registerUser lib userId name email = (lib, none) := by
  unfold registerUser
  by_cases h1 : (lib.findUserById userId).isSome = true
  · rw [if_pos h1]
  · rw [if_neg h1]
    have h2 : email ∈ lib.emails :=
      h.resolve_left (fun h' => h1 ((findUserById_isSome lib userId).2 h'))
    rw [if_pos ((findUserByEmail_isSome lib email).2 h2)]

/-- C8 (as amended).  (1) `addBook` and `addUser` never fail: for every catalog they
append the book or user at the end of the list, also when its key is already
present, leave the other list and the book objects alone and write the snapshot of
the new catalog.  (2) For a catalog whose isbns, userIds and emails are pairwise
distinct, the keys are pairwise distinct after `addBook` exactly when the isbn was
not yet present, and after `addUser` exactly when the userId and the email were not
yet present.  (3) The duplicate check is made by `registerUser`: with a userId or
email already present it leaves the catalog unchanged and writes nothing; otherwise
it calls `addUser` with the new user, who is appended at the end; in both cases the
isbns, userIds and emails stay pairwise distinct. -/
theorem add_keeps_keys_distinct (lib : Library) (book : Nat) (user : User)
    (userId name email : Str) :
    ((lib.addBook book).1.books = lib.books ++ [book] ∧
      (lib.addBook book).1.users = lib.users ∧ (lib.addBook book).1.heap = lib.heap ∧
      (lib.addBook book).2 = (lib.addBook book).1.saveData ∧
      (lib.addUser user).1.users = lib.users ++ [user] ∧
      (lib.addUser user).1.books = lib.books ∧ (lib.addUser user).1.heap = lib.heap ∧
      (lib.addUser user).2 = (lib.addUser user).1.saveData) ∧
    (lib.isbns.Nodup → lib.userIds.Nodup → lib.emails.Nodup →
      (((lib.addBook book).1.isbns.Nodup ↔ (lib.heap book).isbn ∉ lib.isbns) ∧
        (lib.addBook book).1.userIds.Nodup ∧ (lib.addBook book).1.emails.Nodup) ∧
      ((lib.addUser user).1.isbns.Nodup ∧
        ((lib.addUser user).1.userIds.Nodup ↔ user.userId ∉ lib.userIds) ∧
        ((lib.addUser user).1.emails.Nodup ↔ user.email ∉ lib.emails)) ∧
      ((registerUser lib userId name email).1.isbns.Nodup ∧
        (registerUser lib userId name email).1.userIds.Nodup ∧
        (registerUser lib userId name email).1.emails.Nodup)) ∧
    ((userId ∈ lib.userIds ∨ email ∈ lib.emails →
        registerUser lib userId name email = (lib, none)) ∧
      (userId ∉ lib.userIds → email ∉ lib.emails →
        registerUser lib userId name email =
          ((lib.addUser (User.new userId name email)).1,
            some (lib.addUser (User.new userId name email)).2) ∧
        (registerUser lib userId name email).1.users =
          lib.users ++ [User.new userId name email] ∧
        (registerUser lib userId name email).1.books = lib.books ∧
        (registerUser lib userId name email).1.heap = lib.heap)) := by
  refine ⟨⟨rfl, rfl, rfl, rfl, rfl, rfl, rfl, rfl⟩, ?_, ?_, ?_⟩
  · intro hi hu he
    refine ⟨⟨?_, hu, he⟩, ⟨hi, ?_, ?_⟩, ?_⟩
    · simp only [Library.addBook, Library.isbns, List.map_append, List.map_cons,
        List.map_nil]
      exact ⟨fun h hin => not_nodup_snoc _ _ hin h, fun h => nodup_snoc _ _ hi h⟩
    · simp only [Library.addUser, Library.userIds, List.map_append, List.map_cons,
        List.map_nil]
      exact ⟨fun h hin => not_nodup_snoc _ _ hin h, fun h => nodup_snoc _ _ hu h⟩
    · simp only [Library.addUser, Library.emails, List.map_append, List.map_cons,
        List.map_nil]
      exact ⟨fun h hin => not_nodup_snoc _ _ hin h, fun h => nodup_snoc _ _ he h⟩
    · by_cases h : userId ∈ lib.userIds ∨ email ∈ lib.emails
      · rw [registerUser_duplicate lib userId name email h]
        exact ⟨hi, hu, he⟩
      · have h1 : userId ∉ lib.userIds := fun h' => h (Or.inl h')
        have h2 : email ∉ lib.emails := fun h' => h (Or.inr h')
        rw [registerUser_fresh lib userId name email h1 h2]
        refine ⟨hi, ?_, ?_⟩
        · simp only [Library.addUser, Library.userIds, List.map_append, List.map_cons,
            List.map_nil]
          exact nodup_snoc _ _ hu h1
        · simp only [Library.addUser, Library.emails, List.map_append, List.map_cons,
            List.map_nil]
          exact nodup_snoc _ _ he h2
  · exact registerUser_duplicate lib userId name email
  · intro h1 h2
    rw [registerUser_fresh lib userId name email h1 h2]
    exact ⟨rfl, rfl, rfl, rfl⟩

theorem add_keeps_keys_distinct_witness :
    ((libTwoBooks.addBook 2).1.isbns.Nodup ∧ (libTwoBooks.addBook 2).1.userIds.Nodup ∧
      (libTwoBooks.addBook 2).1.emails.Nodup) ∧
    ((libTwoBooks.addUser userU3).1.isbns.Nodup ∧
      (libTwoBooks.addUser userU3).1.userIds.Nodup ∧
      (libTwoBooks.addUser userU3).1.emails.Nodup) ∧
    ¬ (libTwoBooks.addBook 0).1.isbns.Nodup ∧
    registerUser libTwoBooks "u1".toList "Z".toList "z@x".toList = (libTwoBooks, none) ∧
    (registerUser libTwoBooks "u3".toList "K".toList "k@x".toList).1.users
      = libTwoBooks.users ++ [userU3] ∧
    (registerUser libTwoBooks "u3".toList "K".toList "k@x".toList).1.userIds.Nodup :=
  ⟨⟨((add_keeps_keys_distinct libTwoBooks 2 userU3 "u1".toList "Z".toList
        "z@x".toList).2.1 (by decide) (by decide) (by decide)).1.1.2 (by decide),
      ((add_keeps_keys_distinct libTwoBooks 2 userU3 "u1".toList "Z".toList
        "z@x".toList).2.1 (by decide) (by decide) (by decide)).1.2⟩,
    ⟨((add_keeps_keys_distinct libTwoBooks 2 userU3 "u1".toList "Z".toList
        "z@x".toList).2.1 (by decide) (by decide) (by decide)).2.1.1,
      ((add_keeps_keys_distinct libTwoBooks 2 userU3 "u1".toList "Z".toList
        "z@x".toList).2.1 (by decide) (by decide) (by decide)).2.1.2.1.2 (by decide),
      ((add_keeps_keys_distinct libTwoBooks 2 userU3 "u1".toList "Z".toList
        "z@x".toList).2.1 (by decide) (by decide) (by decide)).2.1.2.2.2 (by decide)⟩,
    fun h => ((add_keeps_keys_distinct libTwoBooks 0 userU3 "u1".toList "Z".toList
        "z@x".toList).2.1 (by decide) (by decide) (by decide)).1.1.1 h (by decide),
    (add_keeps_keys_distinct libTwoBooks 2 userU3 "u1".toList "Z".toList
        "z@x".toList).2.2.1 (Or.inl (by decide)),
    ((add_keeps_keys_distinct libTwoBooks 2 userU3 "u3".toList "K".toList
        "k@x".toList).2.2.2 (by decide) (by decide)).2.1,
    ((add_keeps_keys_distinct libTwoBooks 2 userU3 "u3".toList "K".toList
        "k@x".toList).2.1 (by decide) (by decide) (by decide)).2.2.2.1⟩

/-- C8 (as stated) fails: the isbns, userIds and emails of `libOneHolder` are
pairwise distinct; `addBook` with a book whose isbn `i1` is already present appends
it, and `addUser` with a user whose userId `u1` is already present appends it, so
the lists change and the keys are no longer pairwise distinct. -/
theorem add_duplicate_appends :
    libOneHolder.isbns.Nodup ∧ libOneHolder.userIds.Nodup ∧ libOneHolder.emails.Nodup ∧
    (libOneHolder.heap 1).isbn ∈ libOneHolder.isbns ∧
    (libOneHolder.addBook 1).1.books = [0, 1] ∧
    (libOneHolder.addBook 1).1.books ≠ libOneHolder.books ∧
    ¬ (libOneHolder.addBook 1).1.isbns.Nodup ∧
    (userU1 []).userId ∈ libOneHolder.userIds ∧
    (libOneHolder.addUser (userU1 [])).1.users ≠ libOneHolder.users ∧
    ¬ (libOneHolder.addUser (userU1 [])).1.userIds.Nodup ∧
    ¬ (libOneHolder.addUser (userU1 [])).1.emails.Nodup := by
  decide

/-! ## Catalog: lookup by genre -/

theorem copyLoop_eq (books : List Nat) (high : Nat) (hh : high ≤ books.length) :
    ∀ (fuel it : Nat) (result : List Nat), it ≤ high → high - it < fuel →
      copyLoop books high fuel it result
        = some (result ++ (books.drop it).take (high - it)) := by
  intro fuel
  induction fuel with
  | zero => intro it result _ h; omega
  | succ n ih =>
    intro it result h1 h2
    unfold copyLoop
    by_cases e : it = high
    · subst e
      simp
    · rw [if_neg e]
      have hlt : it < books.length := by omega
      have hget : books[it]? = some books[it] := List.getElem?_eq_getElem hlt
      rw [hget]
      simp only
      rw [ih (it + 1) (result ++ [books[it]]) (by omega) (by omega)]
      have hd : books.drop it = books[it] :: books.drop (it + 1) :=
        List.drop_eq_getElem_cons hlt
      have hs : high - it = (high - (it + 1)) + 1 := by omega
      rw [hd, hs, List.take_succ_cons]
      simp

theorem filter_eq_nil_of_above (heap : Heap) (g : Str) (t : List Nat)
    (h : ∀ b ∈ t, g < (heap b).genre) :
    t.filter (fun e => decide ((heap e).genre = g)) = [] := by
  rw [List.filter_eq_nil_iff]
  intro b hb
  have := h b hb
  simp only [decide_eq_true_eq]
  exact fun e => absurd (e ▸ this) (lt_irrefl _)

theorem lowerBound_cons_pos (comp : Nat → Str → Bool) (a : Nat) (t : List Nat) (v : Str)
    (h : comp a v = true) : lowerBound comp (a :: t) v = lowerBound comp t v + 1 := by
  simp [lowerBound, List.takeWhile_cons, h]

theorem lowerBound_cons_neg (comp : Nat → Str → Bool) (a : Nat) (t : List Nat) (v : Str)
    (h : comp a v = false) : lowerBound comp (a :: t) v = 0 := by
  simp [lowerBound, List.takeWhile_cons, h]

theorem upperBound_cons_pos (comp : Str → Nat → Bool) (a : Nat) (t : List Nat) (v : Str)
    (h : comp v a = false) : upperBound comp (a :: t) v = upperBound comp t v + 1 := by
  simp [upperBound, List.takeWhile_cons, h]

theorem upperBound_cons_neg (comp : Str → Nat → Bool) (a : Nat) (t : List Nat) (v : Str)
    (h : comp v a = true) : upperBound comp (a :: t) v = 0 := by
  simp [upperBound, List.takeWhile_cons, h]

theorem genreFilter_cons_pos (heap : Heap) (g : Str) (a : Nat) (t : List Nat)
    (h : (heap a).genre = g) :
    (a :: t).filter (fun e => decide ((heap e).genre = g))
      = a :: t.filter (fun e => decide ((heap e).genre = g)) := by
  simp [List.filter_cons, h]

theorem genreFilter_cons_neg (heap : Heap) (g : Str) (a : Nat) (t : List Nat)
    (h : (heap a).genre ≠ g) :
    (a :: t).filter (fun e => decide ((heap e).genre = g))
      = t.filter (fun e => decide ((heap e).genre = g)) := by
  simp [List.filter_cons, h]

/-- On a list sorted by genre whose genres are all at least `g`, the prefix found by
`upper_bound` is the list of the books with genre `g`. -/
theorem upper_front (heap : Heap) (g : Str) (t : List Nat)
    (hs : t.Pairwise (fun a b => (heap a).genre ≤ (heap b).genre))
    (hg : ∀ b ∈ t, g ≤ (heap b).genre) :
    t.take (upperBound (genreAbove heap) t g)
      = t.filter (fun e => decide ((heap e).genre = g)) := by
  induction t with
  | nil => rfl
  | cons b t ih =>
    rw [List.pairwise_cons] at hs
    have hb : g ≤ (heap b).genre := hg b (List.mem_cons_self _ _)
    have ht : ∀ c ∈ t, g ≤ (heap c).genre := fun c hc => hg c (List.mem_cons_of_mem _ hc)
    rcases eq_or_lt_of_le hb with e | e
    · have h1 : genreAbove heap g b = false := by simp [genreAbove, ← e]
      rw [upperBound_cons_pos _ _ _ _ h1, List.take_succ_cons,
        genreFilter_cons_pos heap g b t e.symm, ih hs.2 ht]
    · have h1 : genreAbove heap g b = true := by simp [genreAbove, e]
      rw [upperBound_cons_neg _ _ _ _ h1,
        genreFilter_cons_neg heap g b t (ne_of_gt e),
        filter_eq_nil_of_above heap g t (fun c hc => lt_of_lt_of_le e (hs.1 c hc))]
      rfl

/-- On a list sorted by genre, the range between `lower_bound` and `upper_bound`
is the list of the books with genre `g`. -/
theorem sorted_slice (heap : Heap) (g : Str) (l : List Nat)
    (hs : l.Pairwise (fun a b => (heap a).genre ≤ (heap b).genre)) :
    lowerBound (genreBelow heap) l g ≤ upperBound (genreAbove heap) l g ∧
    upperBound (genreAbove heap) l g ≤ l.length ∧
    (l.drop (lowerBound (genreBelow heap) l g)).take
        (upperBound (genreAbove heap) l g - lowerBound (genreBelow heap) l g)
      = l.filter (fun e => decide ((heap e).genre = g)) := by
  induction l with
  | nil => exact ⟨le_refl _, le_refl _, rfl⟩
  | cons a t ih =>
    rw [List.pairwise_cons] at hs
    obtain ⟨ih1, ih2, ih3⟩ := ih hs.2
    rcases lt_trichotomy (heap a).genre g with e | e | e
    · have h1 : genreBelow heap a g = true := by simp [genreBelow, e]
      have h2 : genreAbove heap g a = false := by
        simp [genreAbove, not_lt_of_gt e]
      rw [lowerBound_cons_pos _ _ _ _ h1, upperBound_cons_pos _ _ _ _ h2,
        genreFilter_cons_neg heap g a t (ne_of_lt e)]
      simp only [List.length_cons, List.drop_succ_cons, Nat.add_sub_add_right]
      exact ⟨by omega, by omega, ih3⟩
    · have h1 : genreBelow heap a g = false := by simp [genreBelow, e]
      have h2 : genreAbove heap g a = false := by simp [genreAbove, e]
      have hp := upper_front heap g t hs.2 (fun c hc => e ▸ hs.1 c hc)
      rw [lowerBound_cons_neg _ _ _ _ h1, upperBound_cons_pos _ _ _ _ h2,
        genreFilter_cons_pos heap g a t e]
      simp only [List.length_cons, List.drop_zero, Nat.sub_zero, List.take_succ_cons]
      exact ⟨by omega, by omega, by rw [hp]⟩
    · have h1 : genreBelow heap a g = false := by
        simp [genreBelow, not_lt_of_gt e]
      have h2 : genreAbove heap g a = true := by simp [genreAbove, e]
      rw [lowerBound_cons_neg _ _ _ _ h1, upperBound_cons_neg _ _ _ _ h2,
        genreFilter_cons_neg heap g a t (ne_of_gt e),
        filter_eq_nil_of_above heap g t (fun c hc => lt_of_lt_of_le e (hs.1 c hc))]
      simp

theorem sortPost_sorted (heap : Heap) (input output : List Nat)
    (h : SortPost (genreLess heap) input output) :
    output.Pairwise (fun a b => (heap a).genre ≤ (heap b).genre) := by
  refine h.2.imp ?_
  intro a b hab
  simpa [genreLess] using hab

/-- When the `sort` call meets its postcondition, `findBooksByGenre` returns the
books of the sorted vector whose genre is `genre`, and the sorted vector becomes
the catalog's book list. -/
theorem findBooksByGenre_eq (stdSort : (Nat → Nat → Bool) → List Nat → List Nat)
    (lib : Library) (genre : Str)
    (h : SortPost (genreLess lib.heap) lib.books (stdSort (genreLess lib.heap) lib.books)) :
    lib.findBooksByGenre stdSort genre =
      some ((stdSort (genreLess lib.heap) lib.books).filter
              (fun e => decide ((lib.heap e).genre = genre)),
            { lib with books := stdSort (genreLess lib.heap) lib.books }) := by
  obtain ⟨h1, h2, h3⟩ := sorted_slice lib.heap genre _ (sortPost_sorted lib.heap _ _ h)
  unfold Library.findBooksByGenre
  simp only
  rw [copyLoop_eq _ _ h2 _ _ _ h1 (by omega), h3]
  simp

/-- C9. Genre lookup is exact: for every catalog and genre, when the `std::sort`
call meets its postcondition, `findBooksByGenre` returns a list that is, as a
multiset, exactly the books of the catalog whose genre equals the argument (each
once, none with another genre, empty when none matches). -/
theorem findBooksByGenre_exact (stdSort : (Nat → Nat → Bool) → List Nat → List Nat)
    (lib : Library) (genre : Str)
    (h : SortPost (genreLess lib.heap) lib.books (stdSort (genreLess lib.heap) lib.books)) :
    ∃ r, lib.findBooksByGenre stdSort genre = some r ∧
      r.1.Perm (lib.books.filter (fun p => decide ((lib.heap p).genre = genre))) :=
  ⟨_, findBooksByGenre_eq stdSort lib genre h, h.1.filter _⟩

theorem findBooksByGenre_exact_witness :
    SortPost (genreLess libGenres.heap) libGenres.books
      (insertionSortBy (genreLess libGenres.heap) libGenres.books) ∧
    libGenres.books.filter
      (fun p => decide ((libGenres.heap p).genre = "sci-fi".toList)) = [0, 1] ∧
    ∃ r, libGenres.findBooksByGenre insertionSortBy "sci-fi".toList = some r ∧
      r.1.Perm (libGenres.books.filter
        (fun p => decide ((libGenres.heap p).genre = "sci-fi".toList))) :=
  ⟨by decide, by decide,
    findBooksByGenre_exact insertionSortBy libGenres "sci-fi".toList (by decide)⟩

/-- C10 (as amended). Genre lookup sorts the catalog in place: when the `std::sort`
call meets its postcondition, the catalog's book list after `findBooksByGenre` is a
permutation of the list before the call, in non-decreasing order of genre; the book
objects and the users are unchanged. -/
theorem findBooksByGenre_catalog (stdSort : (Nat → Nat → Bool) → List Nat → List Nat)
    (lib : Library) (genre : Str)
    (h : SortPost (genreLess lib.heap) lib.books (stdSort (genreLess lib.heap) lib.books)) :
    ∃ r, lib.findBooksByGenre stdSort genre = some r ∧
      r.2.books.Perm lib.books ∧
      r.2.books.Pairwise (fun a b => (lib.heap a).genre ≤ (lib.heap b).genre) ∧
      r.2.heap = lib.heap ∧ r.2.users = lib.users :=
  ⟨_, findBooksByGenre_eq stdSort lib genre h, h.1, sortPost_sorted lib.heap _ _ h,
    rfl, rfl⟩

theorem findBooksByGenre_catalog_witness :
    SortPost (genreLess libGenres.heap) libGenres.books
      (insertionSortBy (genreLess libGenres.heap) libGenres.books) ∧
    ∃ r, libGenres.findBooksByGenre insertionSortBy "sci-fi".toList = some r ∧
      r.2.books.Perm libGenres.books ∧
      r.2.books.Pairwise
        (fun a b => (libGenres.heap a).genre ≤ (libGenres.heap b).genre) ∧
      r.2.heap = libGenres.heap ∧ r.2.users = libGenres.users :=
  ⟨by decide,
    findBooksByGenre_catalog insertionSortBy libGenres "sci-fi".toList (by decide)⟩

/-- C10 (as stated) fails: in the catalog with genres sci-fi, sci-fi, fantasy (in
this order) the lookup of sci-fi leaves the fantasy book first, whatever sorting
function meeting the postcondition of `std::sort` is used; with insertion sort the
book list `[0, 1, 2]` becomes `[2, 0, 1]`. -/
theorem findBooksByGenre_reorders :
    (∀ stdSort : (Nat → Nat → Bool) → List Nat → List Nat,
      SortPost (genreLess libGenres.heap) libGenres.books
        (stdSort (genreLess libGenres.heap) libGenres.books) →
      ∃ r, libGenres.findBooksByGenre stdSort "sci-fi".toList = some r ∧
        r.2.books ≠ libGenres.books) ∧
    (libGenres.findBooksByGenre insertionSortBy "sci-fi".toList).map
      (fun r => r.2.books) = some [2, 0, 1] := by
  constructor
  · intro stdSort h
    refine ⟨_, findBooksByGenre_eq stdSort libGenres _ h, ?_⟩
    intro e
    have h2 := h.2
    have e' : stdSort (genreLess libGenres.heap) libGenres.books = libGenres.books := e
    rw [e'] at h2
    revert h2
    decide
  · decide

/-! ## Catalog: listing all books -/

theorem sizeSub_eq (a b : Nat) (hb : b ≤ a) : sizeSub a b = a - b := by
  unfold sizeSub
  rw [if_pos hb]

theorem inner_bound (j k i : Nat) :
    sizeSub (sizeSub (j + (k + 1) + i) i) 1 = j + k := by
  rw [sizeSub_eq (j + (k + 1) + i) i (by omega),
    sizeSub_eq (j + (k + 1) + i - i) 1 (by omega)]
  omega

theorem swap_at (pre : List Nat) (a b : Nat) (t : List Nat) :
    ((pre ++ a :: b :: t).set pre.length b).set (pre.length + 1) a
      = pre ++ b :: a :: t := by
  induction pre with
  | nil => rfl
  | cons x xs ih => simp

theorem get_at (pre : List Nat) (a : Nat) (t : List Nat) :
    (pre ++ a :: t)[pre.length]? = some a := by
  induction pre with
  | nil => simp
  | cons x xs ih => simpa using ih

theorem get_at_succ (pre : List Nat) (a b : Nat) (t : List Nat) :
    (pre ++ a :: b :: t)[pre.length + 1]? = some b := by
  induction pre with
  | nil => simp
  | cons x xs ih => simpa using ih

/-- The inner loop, entered at index `j` with `i` elements left alone at the end,
performs one bubble pass over the elements from index `j` to the last but `i`. -/
theorem innerLoop_eq (heap : Heap) (i : Nat) (suf : List Nat) (hi : suf.length = i) :
    ∀ (rest : List Nat) (fuel : Nat) (pre : List Nat) (a : Nat),
      rest.length < fuel →
      innerLoop heap i fuel pre.length (pre ++ a :: (rest ++ suf))
        = some (pre ++ (bubbleFrom heap a rest ++ suf)) := by
  intro rest
  induction rest with
  | nil =>
    intro fuel pre a hf
    obtain ⟨n, rfl⟩ : ∃ n, fuel = n + 1 := ⟨fuel - 1, by simp at hf; omega⟩
    have hb : sizeSub (sizeSub (pre ++ a :: ([] ++ suf)).length i) 1 = pre.length + 0 := by
      have e : (pre ++ a :: ([] ++ suf)).length = pre.length + (0 + 1) + i := by
        simp [hi]; omega
      rw [e]
      exact inner_bound _ _ _
    rw [innerLoop, hb, if_neg (by omega)]
    rfl
  | cons b t ih =>
    intro fuel pre a hf
    obtain ⟨n, rfl⟩ : ∃ n, fuel = n + 1 := ⟨fuel - 1, by simp at hf; omega⟩
    have hb : sizeSub (sizeSub (pre ++ a :: (b :: t ++ suf)).length i) 1
        = pre.length + (t.length + 1) := by
      have e : (pre ++ a :: (b :: t ++ suf)).length
          = pre.length + ((t.length + 1) + 1) + i := by
        simp [hi]; omega
      rw [e]
      exact inner_bound _ _ _
    rw [innerLoop, hb, if_pos (by omega)]
    have g1 : (pre ++ a :: (b :: t ++ suf))[pre.length]? = some a := get_at pre a _
    have g2 : (pre ++ a :: (b :: t ++ suf))[pre.length + 1]? = some b :=
      get_at_succ pre a b (t ++ suf)
    rw [g1, g2]
    simp only
    have hf' : t.length < n := by simp at hf; omega
    by_cases hgt : (heap a).title > (heap b).title
    · rw [if_pos hgt]
      have hsw : ((pre ++ a :: (b :: t ++ suf)).set pre.length b).set (pre.length + 1) a
          = (pre ++ [b]) ++ a :: (t ++ suf) := by
        rw [show b :: t ++ suf = b :: (t ++ suf) from rfl, swap_at pre a b (t ++ suf)]
        simp
      have := ih n (pre ++ [b]) a hf'
      rw [List.length_append, List.length_singleton] at this
      rw [hsw, this]
      simp [bubbleFrom, hgt]
    · rw [if_neg hgt]
      have hsw : pre ++ a :: (b :: t ++ suf) = (pre ++ [a]) ++ b :: (t ++ suf) := by
        simp
      have := ih n (pre ++ [a]) b hf'
      rw [List.length_append, List.length_singleton] at this
      rw [hsw, this]
      simp [bubbleFrom, hgt]

theorem bubbleFrom_perm (heap : Heap) (l : List Nat) :
    ∀ a, (bubbleFrom heap a l).Perm (a :: l) := by
  induction l with
  | nil => intro a; exact List.Perm.refl _
  | cons b t ih =>
    intro a
    unfold bubbleFrom
    by_cases hgt : (heap a).title > (heap b).title
    · rw [if_pos hgt]
      exact ((ih a).cons b).trans (List.Perm.swap a b t)
    · rw [if_neg hgt]
      exact (ih b).cons a

/-- A bubble pass ends with an element whose title is greatest. -/
theorem bubbleFrom_last (heap : Heap) (l : List Nat) :
    ∀ a, ∃ init m, bubbleFrom heap a l = init ++ [m] ∧
      (∀ x ∈ init, (heap x).title ≤ (heap m).title) ∧
      (heap a).title ≤ (heap m).title := by
  induction l with
  | nil => intro a; exact ⟨[], a, rfl, by simp, le_refl _⟩
  | cons b t ih =>
    intro a
    unfold bubbleFrom
    by_cases hgt : (heap a).title > (heap b).title
    · rw [if_pos hgt]
      obtain ⟨init, m, e, h1, h2⟩ := ih a
      refine ⟨b :: init, m, by rw [e]; rfl, ?_, h2⟩
      intro x hx
      rcases List.mem_cons.1 hx with rfl | hx
      · exact le_trans (le_of_lt hgt) h2
      · exact h1 x hx
    · rw [if_neg hgt]
      obtain ⟨init, m, e, h1, h2⟩ := ih b
      have hab : (heap a).title ≤ (heap b).title := not_lt.1 hgt
      refine ⟨a :: init, m, by rw [e]; rfl, ?_, le_trans hab h2⟩
      intro x hx
      rcases List.mem_cons.1 hx with rfl | hx
      · exact le_trans hab h2
      · exact h1 x hx

/-- A bubble pass keeps the books of each title in their order. -/
theorem bubbleFrom_stable (heap : Heap) (title : Str) (l : List Nat) :
    ∀ a, (bubbleFrom heap a l).filter (fun p => decide ((heap p).title = title))
      = (a :: l).filter (fun p => decide ((heap p).title = title)) := by
  induction l with
  | nil => intro a; rfl
  | cons b t ih =>
    intro a
    unfold bubbleFrom
    by_cases hgt : (heap a).title > (heap b).title
    · rw [if_pos hgt]
      have hne : (heap a).title ≠ (heap b).title := ne_of_gt hgt
      simp only [List.filter_cons, ih a]
      by_cases ha : (heap a).title = title
      · have hb : (heap b).title ≠ title := fun e => hne (ha.trans e.symm)
        simp [ha, hb]
      · simp [ha]
    · rw [if_neg hgt]
      simp only [List.filter_cons, ih b]

/-- The outer loop, entered at `i` when the last `i` elements are in their final
place, returns a list that is sorted by title, is a permutation of the list it was
given and keeps the books of each title in their order. -/
theorem outerLoop_spec (heap : Heap) :
    ∀ (fuel : Nat) (front back : List Nat),
      front.length < fuel →
      back.Pairwise (fun a b => (heap a).title ≤ (heap b).title) →
      (∀ x ∈ front, ∀ y ∈ back, (heap x).title ≤ (heap y).title) →
      ∃ out, outerLoop heap fuel back.length (front ++ back) = some out ∧
        out.Perm (front ++ back) ∧
        out.Pairwise (fun a b => (heap a).title ≤ (heap b).title) ∧
        ∀ title, out.filter (fun p => decide ((heap p).title = title))
          = (front ++ back).filter (fun p => decide ((heap p).title = title)) := by
  intro fuel
  induction fuel with
  | zero => intro front back h; omega
  | succ n ih =>
    intro front back hf hs hle
    rw [outerLoop]
    cases front with
    | nil =>
      rw [if_neg (by simp)]
      exact ⟨_, rfl, List.Perm.refl _, by simpa using hs, fun _ => rfl⟩
    | cons a rest =>
      rw [if_pos (by simp; omega)]
      have hin := innerLoop_eq heap back.length back rfl rest
        ((a :: rest ++ back).length + 1) [] a (by simp; omega)
      simp only [List.nil_append, List.length_nil] at hin
      rw [show a :: (rest ++ back) = a :: rest ++ back from rfl] at hin
      rw [hin]
      simp only
      obtain ⟨init, m, e, h1, h2⟩ := bubbleFrom_last heap rest a
      have hperm : (init ++ [m]).Perm (a :: rest) := e ▸ bubbleFrom_perm heap rest a
      have hm : m ∈ a :: rest := hperm.subset (by simp)
      have hinit : ∀ x ∈ init, x ∈ a :: rest := fun x hx => hperm.subset (by simp [hx])
      have hs' : (m :: back).Pairwise (fun a b => (heap a).title ≤ (heap b).title) :=
        List.pairwise_cons.2 ⟨fun y hy => hle m hm y hy, hs⟩
      have hle' : ∀ x ∈ init, ∀ y ∈ m :: back, (heap x).title ≤ (heap y).title := by
        intro x hx y hy
        rcases List.mem_cons.1 hy with rfl | hy
        · exact h1 x hx
        · exact hle x (hinit x hx) y hy
      have hf' : init.length < n := by
        have := hperm.length_eq
        simp at this hf
        omega
      obtain ⟨out, o1, o2, o3, o4⟩ := ih init (m :: back) hf' hs' hle'
      have eq1 : bubbleFrom heap a rest ++ back = init ++ m :: back := by
        rw [e]; simp
      rw [eq1]
      rw [List.length_cons] at o1
      refine ⟨out, o1, ?_, o3, ?_⟩
      · refine o2.trans ?_
        rw [← eq1]
        exact (bubbleFrom_perm heap rest a).append_right back
      · intro title
        rw [o4 title, ← eq1, List.filter_append, bubbleFrom_stable, ← List.filter_append]

/-- C11 (as amended). Listing order: for every catalog the bubble sort of
`displayAllBooks` never indexes outside the list (the call returns, also for the
empty and the one-element catalog), and the book list it produces is a permutation
of the catalog's books sorted ascending by title, in which the books of equal title
keep the relative order they had in the catalog (the isbn is not compared).  The
book objects and the users are unchanged. -/
theorem displayAllBooks_sorted (lib : Library) :
    ∃ r, lib.displayAllBooks = some r ∧
      r.1 = r.2.books.map lib.heap ∧
      r.2.books.Perm lib.books ∧
      r.2.books.Pairwise (fun a b => (lib.heap a).title ≤ (lib.heap b).title) ∧
      (∀ title, r.2.books.filter (fun p => decide ((lib.heap p).title = title))
        = lib.books.filter (fun p => decide ((lib.heap p).title = title))) ∧
      r.2.heap = lib.heap ∧ r.2.users = lib.users := by
  obtain ⟨out, h1, h2, h3, h4⟩ := outerLoop_spec lib.heap (lib.books.length + 1)
    lib.books [] (by omega) List.Pairwise.nil (by simp)
  simp only [List.append_nil, List.length_nil] at h1 h2 h4
  refine ⟨(out.map lib.heap, { lib with books := out }), ?_, rfl, h2, h3, h4, rfl, rfl⟩
  simp [Library.displayAllBooks, h1]

/-- C11 (as stated) fails: the two books of `libTie` have the same title `A`; the
listing keeps the catalog order, isbn `i2` before isbn `i1`, although
`i1 < i2`. -/
theorem displayAllBooks_ties_keep_order :
    libTie.displayAllBooks.map (fun r => r.1.map (fun b => (b.title, b.isbn)))
      = some [("A".toList, "i2".toList), ("A".toList, "i1".toList)] ∧
    libTie.displayAllBooks.map (fun r => r.2.books) = some [0, 1] ∧
    "i1".toList < "i2".toList := by
  decide

/-- The listing of the three example books: Dune, Hobbit, Neuromancer. -/
theorem displayAllBooks_three :
    libGenres.displayAllBooks.map (fun r => r.2.books) = some [0, 2, 1] := by
  decide

/-- The listing of the empty catalog and of a one-element catalog: the loops are
left without an access to the vector. -/
theorem displayAllBooks_small :
    Library.empty.displayAllBooks.map (fun r => r.2.books) = some [] ∧
    libOneHolder.displayAllBooks.map (fun r => r.2.books) = some [0] := by
  decide

/-! ## Persistence -/

set_option maxRecDepth 100000

/-- The snapshot written for `libSnapshot` (3 books, 2 users, 1 active borrow). -/
theorem saveData_libSnapshot :
    libSnapshot.saveData =
      ("[BOOKS]\nDune,Herbert,i1,sci-fi,1965,0\nNeuromancer,Gibson,i2,sci-fi,1984,1\n"
        ++ "Hobbit,Tolkien,i3,fantasy,1937,1\n[USERS]\nu1,N,n@x\n[BORROWED]u1\n"
        ++ "i1,1700000000\nu2,M,m@x\n[BORROWED]u2\n").toList := by
  decide

/-- C6 fails on the code.  `libSnapshot` is a valid catalog (distinct isbns, userIds
and emails, valid fields, both borrow invariants) with 3 books, 2 users and 1
active borrow.  Loading its snapshot into the empty catalog, at any time, gives the
same three books, but only the user `u1`, and `u1` without a borrow record: the
borrow line `i1,1700000000` is given to `borrowBook`, which refuses the book because
it was loaded as unavailable, and the line of `u2` is read inside the section
`[BORROWED]u1`. -/
theorem loadData_saveData_libSnapshot :
    (libSnapshot.isbns.Nodup ∧ libSnapshot.userIds.Nodup ∧ libSnapshot.emails.Nodup ∧
      libSnapshot.validFields = true ∧ AvailabilityInv libSnapshot ∧
      AtMostOneRecord libSnapshot) ∧
    libSnapshot.userValues =
      [UserValue.mk "u1".toList "N".toList "n@x".toList [("i1".toList, 1700000000)],
       UserValue.mk "u2".toList "M".toList "m@x".toList []] ∧
    ∀ now : Int,
      (Library.loadData now (some libSnapshot.saveData) Library.empty).map
        Library.bookValues = some libSnapshot.bookValues ∧
      (Library.loadData now (some libSnapshot.saveData) Library.empty).map
        Library.userValues = some [UserValue.mk "u1".toList "N".toList "n@x".toList []] :=
  ⟨by decide, by decide, fun _ => ⟨rfl, rfl⟩⟩

/-- C7 fails on the code.  First, the snapshot that `saveData` writes for
`libOneBorrow` has the borrow line `i1,100` in the section `[BORROWED]u1`, and `i1`
resolves to the book loaded from `[BOOKS]`; after the load `u1` holds no record at
all (the book was loaded as unavailable, so `borrowBook` refuses it).  Second, in
`textTwoBorrows` both borrow lines `i1,100` and `i2,200` resolve; after the load
`u1` holds a single record, for `i1` with due date 200: the line `i2,200` made no
record and its date overwrote the date 100 of the record for `i1`. -/
theorem loadData_borrow_lines :
    libOneBorrow.saveData
      = "[BOOKS]\nA,X,i1,g,2000,0\n[USERS]\nu1,N,n@x\n[BORROWED]u1\ni1,100\n".toList ∧
    ∀ now : Int,
      ((Library.loadData now (some libOneBorrow.saveData) Library.empty).map
          Library.bookValues = some libOneBorrow.bookValues ∧
        (Library.loadData now (some libOneBorrow.saveData) Library.empty).map
          Library.userValues = some [UserValue.mk "u1".toList "N".toList "n@x".toList []]) ∧
      ((Library.loadData now (some textTwoBorrows) Library.empty).map
          (fun lib => lib.bookValues.map (fun b => (b.isbn, b.available)))
          = some [("i1".toList, false), ("i2".toList, false)] ∧
        (Library.loadData now (some textTwoBorrows) Library.empty).map Library.userValues
          = some [UserValue.mk "u1".toList "N".toList "n@x".toList
                    [("i1".toList, 200)]]) :=
  ⟨by decide, fun _ => ⟨⟨rfl, rfl⟩, ⟨rfl, rfl⟩⟩⟩

/-- C12 fails on the code.  `libTwoUsers` has no book, no borrow and the two users
`u1` and `u2` with valid fields.  Its snapshot has the line of `u2` after the
marker `[BORROWED]u1`, so the load reads it as a borrow line and the loaded catalog
has the user `u1` only. -/
theorem loadData_saveData_libTwoUsers :
    libTwoUsers.validFields = true ∧
    libTwoUsers.saveData
      = "[BOOKS]\n[USERS]\nu1,N,n@x\n[BORROWED]u1\nu2,M,m@x\n[BORROWED]u2\n".toList ∧
    libTwoUsers.userEntries =
      [("u1".toList, "N".toList, "n@x".toList), ("u2".toList, "M".toList, "m@x".toList)] ∧
    ∀ now : Int,
      (Library.loadData now (some libTwoUsers.saveData) Library.empty).map
        Library.userEntries = some [("u1".toList, "N".toList, "n@x".toList)] :=
  ⟨by decide, by decide, by decide, fun _ => rfl⟩

/-- With a single user and no borrow the users list survives the round trip. -/
theorem loadData_saveData_libOneUser :
    ∀ now : Int,
      (Library.loadData now (some libOneUser.saveData) Library.empty).map
        Library.userEntries = some libOneUser.userEntries :=
  fun _ => rfl

/-- A borrow line for a book that was loaded as available does make a record with
the persisted due date. -/
theorem loadData_available_book :
    ∀ now : Int,
      (Library.loadData now
        (some "[BOOKS]\nA,X,i1,g,2000,1\n[USERS]\nu1,N,n@x\n[BORROWED]u1\ni1,100\n".toList)
        Library.empty).map Library.userValues
        = some [UserValue.mk "u1".toList "N".toList "n@x".toList [("i1".toList, 100)]] :=
  fun _ => rfl

end LibraryManagement
